import Mathlib

/-!
Verification of the Bifröst intake gateway core against its
natural-language specification.

The Go sources are shallowly embedded as executable Lean definitions:

* `internal/server` fixed-window rate limiter (`newFixedWindowLimiter`,
  `allow`);
* `internal/server/handlers/form.go` payload validator
  (`validatePayload`) and the `SubmitForm` request handling skeleton;
* `internal/server/middleware.go` pipeline stages (`corsByPath`,
  `verifyToken`, `rateLimit`, `pathContext`, `withMiddleware`).

Go maps are embedded as association lists (`List (String × α)`); Go map
iteration order, which is unspecified, is fixed to list order.  Machine
integers are `Int` (none of the verified paths can overflow 64-bit
values at the modelled scales).  JSON numbers (Go `float64` produced by
`encoding/json`) are embedded as `Rat`; the only primitive operation the
code applies to them is truncation toward zero (`int(f)`), which `Rat`
models exactly for every value `float64` can hold.  Wall-clock instants
(`time.Time`) and durations are embedded as `Int`, with `time.Now`
passed explicitly as a parameter; `t.After(u)` is `u < t`.
-/

namespace Bifrost

/-- Go map lookup on an association list: first binding wins. -/
def lookupKV {α : Type} : List (String × α) → String → Option α
  | [], _ => none
  | (k, v) :: rest, key => if k = key then some v else lookupKV rest key

/-- Go map assignment `m[key] = v`: replace the binding if present,
append it otherwise. -/
def setKV {α : Type} : List (String × α) → String → α → List (String × α)
  | [], key, nv => [(key, nv)]
  | (k, v) :: rest, key, nv =>
      if k = key then (key, nv) :: rest else (k, v) :: setKV rest key nv

/-! ## Fixed-window rate limiter (`internal/server`, `fixedWindowLimiter`) -/

/-- Per-key window state (Go `bucket`). -/
structure bucket where
  resetAt : Int
  count : Int
deriving DecidableEq, Repr

/-- Embedding of Go `fixedWindowLimiter`.  The mutex only serialises
`allow` calls and has no sequential content. -/
structure fixedWindowLimiter where
  limit : Int
  window : Int
  buckets : List (String × bucket)
deriving DecidableEq, Repr

/-- Embedding of `newFixedWindowLimiter`: rejects a negative limit or
window, otherwise starts with an empty bucket map. -/
def newFixedWindowLimiter (limit window : Int) : Except String fixedWindowLimiter :=
  if limit < 0 then Except.error "invalid limiter configuration: negative limit"
  else if window < 0 then Except.error "invalid limiter configuration: negative window"
  else Except.ok { limit := limit, window := window, buckets := [] }

/-- Embedding of `(*fixedWindowLimiter).allow`, with `now` explicit.
Returns the decision together with the successor limiter state. -/
def allow (l : fixedWindowLimiter) (now : Int) (key : String) :
    Bool × fixedWindowLimiter :=
  match lookupKV l.buckets key with
  | none =>
      (true, { l with buckets := setKV l.buckets key ⟨now + l.window, 1⟩ })
  | some b =>
      if b.resetAt < now then
        (true, { l with buckets := setKV l.buckets key ⟨now + l.window, 1⟩ })
      else if b.count ≥ l.limit then
        (false, l)
      else
        (true, { l with buckets := setKV l.buckets key ⟨b.resetAt, b.count + 1⟩ })

/-! ## Form data model (`internal/config`) -/

/-- Embedding of `config.FormFieldType` (`bool`, `int`, `string`,
`objects`). -/
inductive FormFieldType where
  | bool
  | int
  | string
  | objects
deriving DecidableEq, Repr

/-- Embedding of `FormFieldType.String()`. -/
def FormFieldType.toName : FormFieldType → String
  | .bool => "bool"
  | .int => "int"
  | .string => "string"
  | .objects => "objects"

/-- Embedding of `config.FormField`.  `shape` is the sub-field name to
primitive type map of an object-array field. -/
structure FormField where
  shape : List (String × FormFieldType)
  displayName : String
  displayTemplate : String
  type : FormFieldType
  min : Int
  max : Int
  required : Bool
deriving DecidableEq, Repr

/-- Embedding of `config.Form` restricted to the parts the validator and
the submit handler read.  Notifier configuration is consumed only by the
outbound rendering collaborator and is abstracted as an oracle in
`submitForm`. -/
structure Form where
  id : String
  token : String
  fields : List (String × FormField)
  accessControlMaxAge : Int

/-! ## Decoded JSON payload values -/

/-- Dynamic values of the decoded `map[string]any` payload.  `num` is a
JSON number (Go `float64`); `int` is a Go `int` as stored back into the
map by the validator's integer truncation. -/
inductive GoValue where
  | bool (b : Bool)
  | num (x : Rat)
  | int (i : Int)
  | str (s : String)
  | arr (elems : List GoValue)
  | obj (entries : List (String × GoValue))
  | null

/-- Go dynamic type name of a payload value, as printed by `%T`. -/
def goTypeName : GoValue → String
  | .bool _ => "bool"
  | .num _ => "float64"
  | .int _ => "int"
  | .str _ => "string"
  | .arr _ => "[]interface {}"
  | .obj _ => "map[string]interface {}"
  | .null => "<nil>"

/-- Go `%q` formatting of a field name (no characters needing escapes
appear in the verified scenarios). -/
def goQuote (s : String) : String := "\"" ++ s ++ "\""

/-- Go `int(f)` conversion of a `float64`: truncation toward zero
(`Int.tdiv` is T-division). -/
def truncRat (q : Rat) : Int := Int.tdiv q.num q.den

/-- The request-scoped payload map. -/
abbrev Payload := List (String × GoValue)

/-! ## Payload validator (`handlers/form.go`, `validatePayload`) -/

/-- Embedding of the `payloadError` struct. -/
structure payloadError where
  field : String
  message : String
deriving DecidableEq, Repr

/-- Outcome of a validation step: success, a returned `payloadError`, or
a Go `panic` (programming-invariant violation, recovered only by the
pipeline's recovery stage). -/
inductive VRes (α : Type) where
  | ok (a : α)
  | err (e : payloadError)
  | panicked (msg : String)
deriving DecidableEq, Repr

/-- First pass of `validatePayload`, body of the `for k, v := range
payload` loop: the key must be declared and the value's dynamic type
must match the declared type. -/
def checkKnownAndType (fields : List (String × FormField)) (k : String) (v : GoValue) :
    Option payloadError :=
  match lookupKV fields k with
  | none => some ⟨k, "unknown field " ++ goQuote k⟩
  | some cfg =>
      match v with
      | .bool _ =>
          if cfg.type ≠ .bool then
            some ⟨k, "field " ++ goQuote k ++ " has invalid type bool, expected " ++
              cfg.type.toName⟩
          else none
      | .num _ =>
          if cfg.type ≠ .int then
            some ⟨k, "field " ++ goQuote k ++ " has invalid type number, expected " ++
              cfg.type.toName⟩
          else none
      | .str _ =>
          if cfg.type ≠ .string then
            some ⟨k, "field " ++ goQuote k ++ " has invalid type string, expected " ++
              cfg.type.toName⟩
          else none
      | .arr _ =>
          if cfg.type ≠ .objects then
            some ⟨k, "field " ++ goQuote k ++ " has invalid type array, expected " ++
              cfg.type.toName⟩
          else none
      | other => some ⟨k, "field " ++ goQuote k ++ " has invalid type " ++ goTypeName other⟩

/-- First pass of `validatePayload` over the whole payload, fail-fast. -/
def pass1 (fields : List (String × FormField)) : Payload → Option payloadError
  | [] => none
  | (k, v) :: rest =>
      match checkKnownAndType fields k v with
      | some e => some e
      | none => pass1 fields rest

/-- Check of one `name, value` entry of an object-array element against
the field's `shape` (the inner `switch shapeType` of
`validatePayload`). -/
def checkObjEntry (k : String) (shape : List (String × FormFieldType))
    (name : String) (value : GoValue) : VRes Unit :=
  match lookupKV shape name with
  | none => .err ⟨k, "unknown field " ++ goQuote name ++ " in field " ++ goQuote k⟩
  | some shapeType =>
      match shapeType with
      | .bool =>
          match value with
          | .bool _ => .ok ()
          | v => .err ⟨k, "value " ++ goQuote name ++ " in field " ++ goQuote k ++
              " should be bool but it is " ++ goTypeName v⟩
      | .int =>
          match value with
          | .num _ => .ok ()
          | v => .err ⟨k, "value " ++ goQuote name ++ " in field " ++ goQuote k ++
              " should be number but it is " ++ goTypeName v⟩
      | .string =>
          match value with
          | .str _ => .ok ()
          | v => .err ⟨k, "value " ++ goQuote name ++ " in field " ++ goQuote k ++
              " should be string but it is " ++ goTypeName v⟩
      | .objects =>
          .panicked ("value " ++ goQuote name ++ " in field " ++ goQuote k ++
            " has invalid configured type")

/-- The `for name, value := range obj` loop over one element's
entries. -/
def checkObjEntries (k : String) (shape : List (String × FormFieldType)) :
    List (String × GoValue) → VRes Unit
  | [] => .ok ()
  | (name, value) :: rest =>
      match checkObjEntry k shape name value with
      | .ok _ => checkObjEntries k shape rest
      | .err e => .err e
      | .panicked m => .panicked m

/-- The `for name := range field.Shape` loop: every shape key must occur
among the element's entries. -/
def checkShapePresent (k : String) (entries : List (String × GoValue)) :
    List (String × FormFieldType) → Option payloadError
  | [] => none
  | (name, _) :: rest =>
      if (lookupKV entries name).isSome then checkShapePresent k entries rest
      else some ⟨k, "value " ++ goQuote name ++ " in field " ++ goQuote k ++ " missing"⟩

/-- Check of one array element of an object-array field. -/
def checkObjElem (k : String) (shape : List (String × FormFieldType)) (a : GoValue) :
    VRes Unit :=
  match a with
  | .obj entries =>
      match checkObjEntries k shape entries with
      | .ok _ =>
          match checkShapePresent k entries shape with
          | some e => .err e
          | none => .ok ()
      | .err e => .err e
      | .panicked m => .panicked m
  | _ => .err ⟨k, "could not cast element of field " ++ goQuote k ++ " to a map"⟩

/-- The `for _, a := range arr` loop over an object-array value. -/
def checkObjElems (k : String) (shape : List (String × FormFieldType)) :
    List GoValue → VRes Unit
  | [] => .ok ()
  | a :: rest =>
      match checkObjElem k shape a with
      | .ok _ => checkObjElems k shape rest
      | .err e => .err e
      | .panicked m => .panicked m

/-- Second-pass per-field constraint check (the `switch field.Type` of
`validatePayload`) for a declared field present in the payload.  A
successful check yields `some v` when the code writes `v` back into the
payload map (`payload[k] = int(f)`), `none` when it leaves it alone. -/
def validateFieldVal (k : String) (field : FormField) (val : GoValue) :
    VRes (Option GoValue) :=
  match field.type with
  | .bool =>
      match val with
      | .bool b =>
          if field.required ∧ ¬ b then
            .err ⟨k, "field " ++ goQuote k ++ " is required but its value is false"⟩
          else .ok none
      | v => .panicked ("field " ++ goQuote k ++ " should have been a bool but it is " ++
          goTypeName v)
  | .int =>
      match val with
      | .num f =>
          if truncRat f < field.min ∨ truncRat f > field.max then
            .err ⟨k, "field " ++ goQuote k ++ " must be between " ++ toString field.min ++
              " and " ++ toString field.max ++ " but it is " ++ toString (truncRat f)⟩
          else .ok (some (.int (truncRat f)))
      | v => .panicked ("field " ++ goQuote k ++ " should have been a number but it is " ++
          goTypeName v)
  | .string =>
      match val with
      | .str s =>
          if field.required ∧ s = "" then
            .err ⟨k, "field " ++ goQuote k ++ " is required but its value is empty"⟩
          else if ((s.utf8ByteSize : Int) < field.min ∨ (s.utf8ByteSize : Int) > field.max)
              ∧ field.max ≠ 0 then
            .err ⟨k, "field " ++ goQuote k ++ " must be between " ++ toString field.min ++
              " and " ++ toString field.max ++ " characters but it is " ++
              toString s.utf8ByteSize ++ " characters"⟩
          else .ok none
      | v => .panicked ("field " ++ goQuote k ++ " should have been a string but it is " ++
          goTypeName v)
  | .objects =>
      match val with
      | .arr elems =>
          if field.required ∧ elems.isEmpty then
            .err ⟨k, "field " ++ goQuote k ++ " is required but its value is empty"⟩
          else
            match checkObjElems k field.shape elems with
            | .ok _ => .ok none
            | .err e => .err e
            | .panicked m => .panicked m
      | v =>
          if field.required then
            .panicked ("field " ++ goQuote k ++ " should have been an array but it is " ++
              goTypeName v)
          else .ok none

/-- Second pass of `validatePayload` (the `for k, field := range
form.Fields` loop), threading the payload map through the in-place
integer truncations. -/
def pass2 (fields : List (String × FormField)) (payload : Payload) : VRes Payload :=
  match fields with
  | [] => .ok payload
  | (k, field) :: rest =>
      match lookupKV payload k with
      | none =>
          if field.required then
            .err ⟨k, "missing required field " ++ goQuote k⟩
          else pass2 rest payload
      | some val =>
          match validateFieldVal k field val with
          | .ok none => pass2 rest payload
          | .ok (some nv) => pass2 rest (setKV payload k nv)
          | .err e => .err e
          | .panicked m => .panicked m

/-- Embedding of `validatePayload`.  On success it returns the payload
map as left by the validator's in-place mutations. -/
def validatePayload (form : Form) (payload : Payload) : VRes Payload :=
  match pass1 form.fields payload with
  | some e => .err e
  | none => pass2 form.fields payload

/-! ## Declarative payload validity -/

/-- Declarative dynamic-type agreement of a decoded payload value with a
declared field type (`bool↔bool`, `number↔int`, `string↔string`,
`array↔objects`). -/
def dynMatches : GoValue → FormFieldType → Bool
  | .bool _, .bool => true
  | .num _, .int => true
  | .str _, .string => true
  | .arr _, .objects => true
  | _, _ => false

/-- Declarative agreement of an object-array sub-value with its declared
primitive type. -/
def primMatches : GoValue → FormFieldType → Bool
  | .bool _, .bool => true
  | .num _, .int => true
  | .str _, .string => true
  | _, _ => false

/-- Declarative validity of one entry of an object-array element: its
key is declared in the shape and its value matches the declared
primitive type. -/
def entryTypeOk (shape : List (String × FormFieldType)) (nv : String × GoValue) : Bool :=
  match lookupKV shape nv.1 with
  | some t => primMatches nv.2 t
  | none => false

/-- Declarative validity of one object-array element: a flat object
whose keys exactly match the shape, each sub-value type-correct. -/
def objElemOk (shape : List (String × FormFieldType)) : GoValue → Bool
  | .obj entries =>
      entries.all (entryTypeOk shape) &&
      shape.all (fun st => (lookupKV entries st.1).isSome)
  | _ => false

/-- Declarative per-field constraints of the validator's second pass. -/
def constraintsOk (field : FormField) : GoValue → Bool
  | .bool b => field.type = FormFieldType.bool && (!field.required || b)
  | .num q => field.type = FormFieldType.int &&
      (decide (field.min ≤ truncRat q) && decide (truncRat q ≤ field.max))
  | .str s => field.type = FormFieldType.string &&
      ((!field.required || !(s = "")) &&
        (field.max = 0 ||
          (decide (field.min ≤ (s.utf8ByteSize : Int)) &&
            decide ((s.utf8ByteSize : Int) ≤ field.max))))
  | .arr elems => field.type = FormFieldType.objects &&
      ((!field.required || !elems.isEmpty) && elems.all (objElemOk field.shape))
  | _ => false

/-- Removal of one key from a payload map (`delete(payload, k)` has no
counterpart in the code; this models "the same request body without
that field"). -/
def eraseKey (pay : Payload) (k : String) : Payload :=
  pay.filter (fun kv => kv.1 != k)

/-- Declarative spec-level validity of a payload against a form: every
payload key names a declared field whose type and constraints its value
satisfies, and every required declared field is present. -/
def ValidPayload (form : Form) (payload : Payload) : Prop :=
  (∀ kv ∈ payload, ∃ field, lookupKV form.fields kv.1 = some field ∧
      dynMatches kv.2 field.type = true ∧ constraintsOk field kv.2 = true) ∧
  (∀ kf ∈ form.fields, kf.2.required = true → (lookupKV payload kf.1).isSome)

/-- Run `allow` for one key at a sequence of instants, collecting the
decisions. -/
def allowRun (l : fixedWindowLimiter) (key : String) : List Int → List Bool
  | [] => []
  | t :: ts =>
      let r := allow l t key
      r.1 :: allowRun r.2 key ts

/-- The limiter state after running `allow` at a sequence of instants. -/
def allowRunState (l : fixedWindowLimiter) (key : String) : List Int → fixedWindowLimiter
  | [] => l
  | t :: ts => allowRunState (allow l t key).2 key ts

/-! ## HTTP requests, responses and pipeline stages
(`internal/server/middleware.go`) -/

/-- Embedding of the `pathInfo` registry record. -/
structure pathInfo where
  site : String
  allowedOrigins : List String
  token : String
deriving DecidableEq, Repr

/-- The `X-Bifrost-Token` site token header name (`siteTokenHeader`). -/
def siteTokenHeader : String := "X-Bifrost-Token"

/-- Embedding of an inbound request: method, URL path, headers, the
request-context site value set by `pathContext`, and the host part of
`RemoteAddr` (the result of `net.SplitHostPort`, an external stdlib
collaborator). -/
structure Request where
  method : String
  path : String
  headers : List (String × String)
  ctxSite : Option String
  remoteIP : String

/-- Embedding of `http.Header.Get`: empty string when absent. -/
def headerGet (r : Request) (name : String) : String :=
  (lookupKV r.headers name).getD ""

/-- Embedding of `strings.HasPrefix`. -/
def hasPrefixGo (s pre : String) : Bool := List.isPrefixOf pre.data s.data

/-- Embedding of an HTTP response: status, the headers explicitly set by
the embedded code, and the body. -/
structure Response where
  status : Nat
  headers : List (String × String)
  body : String
deriving DecidableEq, Repr

/-- Embedding of `http.Error(w, msg, status)` (the `Content-Type` and
`X-Content-Type-Options` headers Go adds are not modelled). -/
def httpError (msg : String) (status : Nat) : Response :=
  { status := status, headers := [], body := msg ++ "\n" }

/-- A handler transforms a request and the shared limiter state (the
only shared mutable state of the pipeline) into a response and a
successor state. -/
abbrev Handler := Request → fixedWindowLimiter → Response × fixedWindowLimiter

/-- Decision of the `corsByPath` middleware stage. -/
inductive StageResult where
  | reject (status : Nat)
  | pass (responseHeaders : List (String × String))
deriving DecidableEq, Repr

/-- Embedding of the `corsByPath` stage as a decision function: `reject`
means the stage writes the given status and never invokes the inner
handler; `pass` means it sets the given response headers and forwards
the request. -/
def corsByPath (paths : List (String × pathInfo)) (path origin : String) : StageResult :=
  if path = "" || path = "/" || !(hasPrefixGo path "/") then .reject 404
  else
    match lookupKV paths path with
    | none => .reject 403
    | some info =>
        let wildcard := info.allowedOrigins.contains "*"
        if origin = "" && !wildcard then .reject 403
        else if !wildcard && !(info.allowedOrigins.contains origin) then .reject 403
        else .pass [("Access-Control-Allow-Origin", origin), ("Vary", "Origin")]

/-- Embedding of the `corsByPath` stage as a handler combinator, the
same Go function read as a wrapper: on rejection the inner handler is
never invoked; on success the two CORS headers set before `h.ServeHTTP`
end up on the final response. -/
def corsByPathStage (paths : List (String × pathInfo)) (h : Handler) : Handler :=
  fun r l =>
    if r.path = "" ∨ r.path = "/" ∨ hasPrefixGo r.path "/" = false then
      (httpError "Not Found" 404, l)
    else
      match lookupKV paths r.path with
      | none => (httpError "Forbidden" 403, l)
      | some info =>
          if headerGet r "Origin" = "" ∧ info.allowedOrigins.contains "*" = false then
            (httpError "Forbidden" 403, l)
          else if info.allowedOrigins.contains "*" = false ∧
              info.allowedOrigins.contains (headerGet r "Origin") = false then
            (httpError "Forbidden" 403, l)
          else
            let rl := h r l
            ({ rl.1 with headers :=
                [("Access-Control-Allow-Origin", headerGet r "Origin"),
                  ("Vary", "Origin")] ++ rl.1.headers }, rl.2)

/-- The 401 response of `verifyToken`: `WWW-Authenticate` names the
expected token header. -/
def unauthorizedResp : Response :=
  { status := 401, headers := [("WWW-Authenticate", siteTokenHeader)],
    body := "Unauthorized\n" }

/-- Embedding of the `verifyToken` middleware stage. -/
def verifyTokenStage (paths : List (String × pathInfo)) (h : Handler) : Handler :=
  fun r l =>
    if r.method = "OPTIONS" then h r l
    else if r.path = "" || r.path = "/" || !(hasPrefixGo r.path "/") then
      (httpError "Not Found" 404, l)
    else
      match lookupKV paths r.path with
      | none => (httpError "Forbidden" 403, l)
      | some info =>
          if info.token = "" then h r l
          else
            let token := headerGet r siteTokenHeader
            if token = "" then (unauthorizedResp, l)
            else if token ≠ info.token then (unauthorizedResp, l)
            else h r l

/-- Embedding of the `rateLimit` middleware stage, with `now` passed to
the limiter explicitly. -/
def rateLimitStage (now : Int) (h : Handler) : Handler :=
  fun r l =>
    match r.ctxSite with
    | none => (httpError "Internal Server Error" 500, l)
    | some site =>
        let key := site ++ "|" ++ r.remoteIP
        let al := allow l now key
        if !al.1 then (httpError "Too Many Requests" 429, al.2)
        else h r al.2

/-- Embedding of the `pathContext` middleware stage. -/
def pathContextStage (paths : List (String × pathInfo)) (h : Handler) : Handler :=
  fun r l =>
    match lookupKV paths r.path with
    | none => (httpError "Not Found" 404, l)
    | some info =>
        if info.site = "" then h r l
        else h { r with ctxSite := some info.site } l

/-- Embedding of the `withMiddleware` composition restricted to the four
registry- and limiter-aware stages (lines 52–55 of `middleware.go`); the
outer recovery, body-size, request-id and logging stages neither read
nor write limiter state. -/
def withMiddlewareCore (paths : List (String × pathInfo)) (now : Int)
    (inner : Handler) : Handler :=
  pathContextStage paths
    (corsByPathStage paths
      (verifyTokenStage paths
        (rateLimitStage now inner)))

/-! ## Form submit handler (`handlers/form.go`, `SubmitForm`) -/

/-- Embedding of the `SubmitForm` handler body.  The request body is the
stream of JSON values the decoder reads (`dec.Decode` then `dec.More`);
the outbound notifier dispatch (`handleSESNotifiers` plus the external
email provider) is abstracted by the `notifyOk` oracle.  A validator
panic escapes the handler and is converted to a 500 by the pipeline's
recovery stage. -/
def submitForm (form : Form) (body : List GoValue) (notifyOk : Bool) : Response :=
  match body with
  | GoValue.obj entries :: rest =>
      if rest.isEmpty then
        match validatePayload form entries with
        | .ok _ =>
            if notifyOk then { status := 200, headers := [], body := "accepted" }
            else httpError "Internal Server Error" 500
        | .err _ => httpError "Bad Request" 400
        | .panicked _ => httpError "Internal Server Error" 500
      else httpError "Bad Request" 400
  | _ :: _ => httpError "Bad Request" 400
  | [] => httpError "Bad Request" 400

/-! ## Association-list lemmas -/

theorem lookupKV_setKV_self {α : Type} (l : List (String × α)) (key : String) (nv : α) :
    lookupKV (setKV l key nv) key = some nv := by
  induction l with
  | nil => simp [setKV, lookupKV]
  | cons hd tl ih =>
      by_cases h : hd.1 = key
      · simp [setKV, lookupKV, h]
      · simpa [setKV, lookupKV, h] using ih

theorem lookupKV_setKV_ne {α : Type} (l : List (String × α)) (key k' : String) (nv : α)
    (h : key ≠ k') : lookupKV (setKV l key nv) k' = lookupKV l k' := by
  induction l with
  | nil => simp [setKV, lookupKV, h]
  | cons hd tl ih =>
      by_cases hh : hd.1 = key
      · simp [setKV, lookupKV, hh, h]
      · by_cases hk : hd.1 = k'
        · simp [setKV, lookupKV, hh, hk, Ne.symm h]
        · simpa [setKV, lookupKV, hh, hk] using ih

theorem lookupKV_mem {α : Type} (l : List (String × α)) (key : String) (v : α)
    (h : lookupKV l key = some v) : (key, v) ∈ l := by
  induction l with
  | nil => simp [lookupKV] at h
  | cons hd tl ih =>
      obtain ⟨k0, v0⟩ := hd
      by_cases hk : k0 = key
      · subst hk
        simp only [lookupKV, if_pos] at h
        injection h with h
        subst h
        exact List.mem_cons_self _ _
      · simp only [lookupKV, if_neg hk] at h
        exact List.mem_cons_of_mem _ (ih h)

theorem lookupKV_of_mem_nodup {α : Type} (l : List (String × α)) (key : String) (v : α)
    (hmem : (key, v) ∈ l) (hnd : (l.map Prod.fst).Nodup) : lookupKV l key = some v := by
  induction l with
  | nil => simp at hmem
  | cons hd tl ih =>
      rcases List.mem_cons.mp hmem with heq | htl
      · rw [← heq]
        simp [lookupKV]
      · have hk : hd.1 ≠ key := by
          intro hcontra
          have : key ∈ tl.map Prod.fst := List.mem_map.mpr ⟨(key, v), htl, rfl⟩
          rw [List.map_cons, List.nodup_cons] at hnd
          exact hnd.1 (hcontra ▸ this)
        rw [List.map_cons, List.nodup_cons] at hnd
        simpa [lookupKV, hk] using ih htl hnd.2

theorem lookupKV_eraseKey_self (pay : Payload) (k : String) :
    lookupKV (eraseKey pay k) k = none := by
  induction pay with
  | nil => simp [eraseKey, lookupKV]
  | cons hd tl ih =>
      obtain ⟨k0, v0⟩ := hd
      by_cases hk : k0 = k
      · have hb : ((k0, v0).1 != k) = false := by simp [hk]
        simpa [eraseKey, List.filter_cons, hb] using ih
      · have hb : ((k0, v0).1 != k) = true := by simp [hk]
        simpa [eraseKey, lookupKV, List.filter_cons, hb, hk] using ih

theorem lookupKV_eraseKey_ne (pay : Payload) (k k' : String) (h : k' ≠ k) :
    lookupKV (eraseKey pay k) k' = lookupKV pay k' := by
  induction pay with
  | nil => simp [eraseKey, lookupKV]
  | cons hd tl ih =>
      obtain ⟨k0, v0⟩ := hd
      by_cases hk : k0 = k
      · have hb : ((k0, v0).1 != k) = false := by simp [hk]
        have hne : k0 ≠ k' := by rw [hk]; exact fun e => h e.symm
        simpa [eraseKey, lookupKV, List.filter_cons, hb, hne] using ih
      · have hb : ((k0, v0).1 != k) = true := by simp [hk]
        by_cases hk' : k0 = k'
        · simp [eraseKey, lookupKV, List.filter_cons, hb, hk', h]
        · simpa [eraseKey, lookupKV, List.filter_cons, hb, hk'] using ih

theorem eraseKey_setKV_comm (pay : Payload) (k k' : String) (nv : GoValue)
    (h : k' ≠ k) : eraseKey (setKV pay k' nv) k = setKV (eraseKey pay k) k' nv := by
  induction pay with
  | nil =>
      have hb : ((k', nv).1 != k) = true := by simp [h]
      simp [eraseKey, setKV, List.filter_cons, hb]
  | cons hd tl ih =>
      obtain ⟨k0, v0⟩ := hd
      by_cases hk' : k0 = k'
      · subst hk'
        have hb : ((k0, nv).1 != k) = true := by simp [h]
        have hb0 : ((k0, v0).1 != k) = true := by
          simp only [bne_iff_ne, ne_eq]
          exact h
        simp [eraseKey, setKV, List.filter_cons, hb, hb0]
      · by_cases hk : k0 = k
        · have hb0 : ((k0, v0).1 != k) = false := by simp [hk]
          simpa [eraseKey, setKV, List.filter_cons, hb0, hk'] using ih
        · have hb0 : ((k0, v0).1 != k) = true := by simp [hk]
          simpa [eraseKey, setKV, List.filter_cons, hb0, hk'] using ih

/-! ## First-pass lemmas -/

theorem checkKnownAndType_none_iff (fields : List (String × FormField)) (k : String)
    (v : GoValue) :
    checkKnownAndType fields k v = none ↔
      ∃ field, lookupKV fields k = some field ∧ dynMatches v field.type = true := by
  cases hl : lookupKV fields k with
  | none => simp [checkKnownAndType, hl]
  | some cfg =>
      cases v <;> cases hcfg : cfg.type <;>
        simp [checkKnownAndType, hl, hcfg, dynMatches]

theorem pass1_none_iff (fields : List (String × FormField)) (payload : Payload) :
    pass1 fields payload = none ↔
      ∀ kv ∈ payload, checkKnownAndType fields kv.1 kv.2 = none := by
  induction payload with
  | nil => simp [pass1]
  | cons hd tl ih =>
      cases hc : checkKnownAndType fields hd.1 hd.2 with
      | none => simpa [pass1, hc] using ih
      | some e => simp [pass1, hc]

theorem pass1_append_none (fields : List (String × FormField)) (xs ys : Payload)
    (h : pass1 fields xs = none) : pass1 fields (xs ++ ys) = pass1 fields ys := by
  induction xs with
  | nil => simp
  | cons hd tl ih =>
      cases hc : checkKnownAndType fields hd.1 hd.2 with
      | none =>
          rw [pass1_none_iff] at h
          have htl : pass1 fields tl = none :=
            (pass1_none_iff fields tl).mpr fun kv hkv => h kv (List.mem_cons_of_mem _ hkv)
          simpa [pass1, hc] using ih htl
      | some e =>
          rw [pass1_none_iff] at h
          have := h hd (by simp)
          rw [this] at hc
          cases hc

/-! ## Object-array element lemmas -/

theorem checkObjEntry_ok_iff (k : String) (shape : List (String × FormFieldType))
    (name : String) (value : GoValue) :
    checkObjEntry k shape name value = VRes.ok () ↔
      entryTypeOk shape (name, value) = true := by
  cases hl : lookupKV shape name with
  | none => simp [checkObjEntry, entryTypeOk, hl]
  | some t => cases t <;> cases value <;> simp [checkObjEntry, entryTypeOk, hl, primMatches]

theorem checkObjEntry_err_field (k : String) (shape : List (String × FormFieldType))
    (name : String) (value : GoValue) (e : payloadError)
    (h : checkObjEntry k shape name value = VRes.err e) : e.field = k := by
  cases hl : lookupKV shape name with
  | none =>
      simp only [checkObjEntry, hl] at h
      injection h with h2
      rw [← h2]
  | some t =>
      cases t <;> cases value <;> simp only [checkObjEntry, hl] at h <;>
        first
          | (injection h with h2; rw [← h2])
          | cases h

theorem checkObjEntry_no_panic (k : String) (shape : List (String × FormFieldType))
    (name : String) (value : GoValue) (m : String)
    (hshape : ∀ st ∈ shape, st.2 ≠ FormFieldType.objects) :
    checkObjEntry k shape name value ≠ VRes.panicked m := by
  cases hl : lookupKV shape name with
  | none => simp [checkObjEntry, hl]
  | some t =>
      have ht : t ≠ FormFieldType.objects := hshape (name, t) (lookupKV_mem _ _ _ hl)
      cases t <;> cases value <;> simp [checkObjEntry, hl] <;> exact fun h => ht rfl

theorem checkObjEntries_ok_iff (k : String) (shape : List (String × FormFieldType))
    (entries : List (String × GoValue)) :
    checkObjEntries k shape entries = VRes.ok () ↔
      entries.all (entryTypeOk shape) = true := by
  induction entries with
  | nil => simp [checkObjEntries]
  | cons hd tl ih =>
      obtain ⟨name, value⟩ := hd
      cases hc : checkObjEntry k shape name value with
      | ok u =>
          have : entryTypeOk shape (name, value) = true :=
            (checkObjEntry_ok_iff k shape name value).mp (by cases u; exact hc)
          simpa [checkObjEntries, hc, this] using ih
      | err e =>
          have : ¬ entryTypeOk shape (name, value) = true := by
            intro hok
            have := (checkObjEntry_ok_iff k shape name value).mpr hok
            rw [this] at hc
            cases hc
          simp [checkObjEntries, hc, this]
      | panicked m =>
          have : ¬ entryTypeOk shape (name, value) = true := by
            intro hok
            have := (checkObjEntry_ok_iff k shape name value).mpr hok
            rw [this] at hc
            cases hc
          simp [checkObjEntries, hc, this]

theorem checkObjEntries_err_field (k : String) (shape : List (String × FormFieldType))
    (entries : List (String × GoValue)) (e : payloadError)
    (h : checkObjEntries k shape entries = VRes.err e) : e.field = k := by
  induction entries with
  | nil => simp [checkObjEntries] at h
  | cons hd tl ih =>
      obtain ⟨name, value⟩ := hd
      cases hc : checkObjEntry k shape name value with
      | ok u =>
          rw [checkObjEntries] at h
          cases u
          rw [hc] at h
          exact ih h
      | err e' =>
          rw [checkObjEntries, hc] at h
          cases h
          exact checkObjEntry_err_field k shape name value _ hc
      | panicked m =>
          rw [checkObjEntries, hc] at h
          cases h

theorem checkObjEntries_no_panic (k : String) (shape : List (String × FormFieldType))
    (entries : List (String × GoValue)) (m : String)
    (hshape : ∀ st ∈ shape, st.2 ≠ FormFieldType.objects) :
    checkObjEntries k shape entries ≠ VRes.panicked m := by
  induction entries with
  | nil => simp [checkObjEntries]
  | cons hd tl ih =>
      obtain ⟨name, value⟩ := hd
      cases hc : checkObjEntry k shape name value with
      | ok u =>
          cases u
          simpa [checkObjEntries, hc] using ih
      | err e' => simp [checkObjEntries, hc]
      | panicked m' =>
          exact absurd hc (checkObjEntry_no_panic k shape name value m' hshape)

theorem checkShapePresent_none_iff (k : String) (entries : List (String × GoValue))
    (shape : List (String × FormFieldType)) :
    checkShapePresent k entries shape = none ↔
      shape.all (fun st => (lookupKV entries st.1).isSome) = true := by
  induction shape with
  | nil => simp [checkShapePresent]
  | cons hd tl ih =>
      obtain ⟨name, t⟩ := hd
      cases hl : (lookupKV entries name).isSome with
      | true => simpa [checkShapePresent, hl] using ih
      | false => simp [checkShapePresent, hl]

theorem checkShapePresent_err_field (k : String) (entries : List (String × GoValue))
    (shape : List (String × FormFieldType)) (e : payloadError)
    (h : checkShapePresent k entries shape = some e) : e.field = k := by
  induction shape with
  | nil => simp [checkShapePresent] at h
  | cons hd tl ih =>
      obtain ⟨name, t⟩ := hd
      cases hl : (lookupKV entries name).isSome with
      | true =>
          rw [checkShapePresent, hl] at h
          exact ih (by simpa using h)
      | false =>
          rw [checkShapePresent, hl] at h
          simp at h
          rw [← h]

theorem checkObjElem_ok_iff (k : String) (shape : List (String × FormFieldType))
    (a : GoValue) :
    checkObjElem k shape a = VRes.ok () ↔ objElemOk shape a = true := by
  cases a with
  | obj entries =>
      cases hc : checkObjEntries k shape entries with
      | ok u =>
          cases u
          cases hs : checkShapePresent k entries shape with
          | none =>
              have h1 := (checkObjEntries_ok_iff k shape entries).mp hc
              have h2 := (checkShapePresent_none_iff k entries shape).mp hs
              simp [checkObjElem, hc, hs, objElemOk, h1, h2]
          | some e =>
              have h1 : ¬ shape.all (fun st => (lookupKV entries st.1).isSome) = true := by
                intro hall
                have := (checkShapePresent_none_iff k entries shape).mpr hall
                rw [this] at hs
                cases hs
              simp [checkObjElem, hc, hs, objElemOk, h1]
      | err e =>
          have h1 : ¬ entries.all (entryTypeOk shape) = true := by
            intro hall
            have := (checkObjEntries_ok_iff k shape entries).mpr hall
            rw [this] at hc
            cases hc
          simp [checkObjElem, hc, objElemOk, h1]
      | panicked m =>
          have h1 : ¬ entries.all (entryTypeOk shape) = true := by
            intro hall
            have := (checkObjEntries_ok_iff k shape entries).mpr hall
            rw [this] at hc
            cases hc
          simp [checkObjElem, hc, objElemOk, h1]
  | bool b => simp [checkObjElem, objElemOk]
  | num x => simp [checkObjElem, objElemOk]
  | int i => simp [checkObjElem, objElemOk]
  | str s => simp [checkObjElem, objElemOk]
  | arr xs => simp [checkObjElem, objElemOk]
  | null => simp [checkObjElem, objElemOk]

theorem checkObjElem_err_field (k : String) (shape : List (String × FormFieldType))
    (a : GoValue) (e : payloadError) (h : checkObjElem k shape a = VRes.err e) :
    e.field = k := by
  cases a with
  | obj entries =>
      cases hc : checkObjEntries k shape entries with
      | ok u =>
          cases u
          rw [checkObjElem, hc] at h
          cases hs : checkShapePresent k entries shape with
          | none => rw [hs] at h; cases h
          | some e' =>
              rw [hs] at h
              cases h
              exact checkShapePresent_err_field k entries shape _ hs
      | err e' =>
          rw [checkObjElem, hc] at h
          cases h
          exact checkObjEntries_err_field k shape entries _ hc
      | panicked m =>
          rw [checkObjElem, hc] at h
          cases h
  | bool b => injection h with h2; rw [← h2]
  | num x => injection h with h2; rw [← h2]
  | int i => injection h with h2; rw [← h2]
  | str s => injection h with h2; rw [← h2]
  | arr xs => injection h with h2; rw [← h2]
  | null => injection h with h2; rw [← h2]

theorem checkObjElem_no_panic (k : String) (shape : List (String × FormFieldType))
    (a : GoValue) (m : String)
    (hshape : ∀ st ∈ shape, st.2 ≠ FormFieldType.objects) :
    checkObjElem k shape a ≠ VRes.panicked m := by
  cases a with
  | obj entries =>
      cases hc : checkObjEntries k shape entries with
      | ok u =>
          cases u
          cases hs : checkShapePresent k entries shape with
          | none => simp [checkObjElem, hc, hs]
          | some e => simp [checkObjElem, hc, hs]
      | err e => simp [checkObjElem, hc]
      | panicked m' =>
          exact absurd hc (checkObjEntries_no_panic k shape entries m' hshape)
  | bool b => simp [checkObjElem]
  | num x => simp [checkObjElem]
  | int i => simp [checkObjElem]
  | str s => simp [checkObjElem]
  | arr xs => simp [checkObjElem]
  | null => simp [checkObjElem]

theorem checkObjElems_ok_iff (k : String) (shape : List (String × FormFieldType))
    (elems : List GoValue) :
    checkObjElems k shape elems = VRes.ok () ↔
      elems.all (objElemOk shape) = true := by
  induction elems with
  | nil => simp [checkObjElems]
  | cons a tl ih =>
      cases hc : checkObjElem k shape a with
      | ok u =>
          cases u
          have := (checkObjElem_ok_iff k shape a).mp hc
          simpa [checkObjElems, hc, this] using ih
      | err e =>
          have : ¬ objElemOk shape a = true := by
            intro hok
            have := (checkObjElem_ok_iff k shape a).mpr hok
            rw [this] at hc
            cases hc
          simp [checkObjElems, hc, this]
      | panicked m =>
          have : ¬ objElemOk shape a = true := by
            intro hok
            have := (checkObjElem_ok_iff k shape a).mpr hok
            rw [this] at hc
            cases hc
          simp [checkObjElems, hc, this]

theorem checkObjElems_err_field (k : String) (shape : List (String × FormFieldType))
    (elems : List GoValue) (e : payloadError)
    (h : checkObjElems k shape elems = VRes.err e) : e.field = k := by
  induction elems with
  | nil => simp [checkObjElems] at h
  | cons a tl ih =>
      cases hc : checkObjElem k shape a with
      | ok u =>
          cases u
          rw [checkObjElems, hc] at h
          exact ih h
      | err e' =>
          rw [checkObjElems, hc] at h
          cases h
          exact checkObjElem_err_field k shape a _ hc
      | panicked m =>
          rw [checkObjElems, hc] at h
          cases h

theorem checkObjElems_no_panic (k : String) (shape : List (String × FormFieldType))
    (elems : List GoValue) (m : String)
    (hshape : ∀ st ∈ shape, st.2 ≠ FormFieldType.objects) :
    checkObjElems k shape elems ≠ VRes.panicked m := by
  induction elems with
  | nil => simp [checkObjElems]
  | cons a tl ih =>
      cases hc : checkObjElem k shape a with
      | ok u =>
          cases u
          simpa [checkObjElems, hc] using ih
      | err e => simp [checkObjElems, hc]
      | panicked m' => exact absurd hc (checkObjElem_no_panic k shape a m' hshape)

/-! ## Per-field validator lemmas -/

theorem validateFieldVal_bool_ok (k : String) (field : FormField) (b : Bool)
    (hc : constraintsOk field (GoValue.bool b) = true) :
    validateFieldVal k field (GoValue.bool b) = VRes.ok none := by
  simp only [constraintsOk, Bool.and_eq_true, decide_eq_true_eq, Bool.or_eq_true,
    Bool.not_eq_true'] at hc
  obtain ⟨ht, hor⟩ := hc
  rcases hor with h | h <;> simp [validateFieldVal, ht, h]

theorem validateFieldVal_num_ok (k : String) (field : FormField) (q : Rat)
    (hc : constraintsOk field (GoValue.num q) = true) :
    validateFieldVal k field (GoValue.num q) =
      VRes.ok (some (GoValue.int (truncRat q))) := by
  simp only [constraintsOk, Bool.and_eq_true, decide_eq_true_eq] at hc
  obtain ⟨ht, h1, h2⟩ := hc
  have hneg : ¬ (truncRat q < field.min ∨ truncRat q > field.max) := by omega
  simp [validateFieldVal, ht, hneg]

theorem validateFieldVal_str_ok (k : String) (field : FormField) (s : String)
    (hc : constraintsOk field (GoValue.str s) = true) :
    validateFieldVal k field (GoValue.str s) = VRes.ok none := by
  simp only [constraintsOk, Bool.and_eq_true, decide_eq_true_eq, Bool.or_eq_true,
    Bool.not_eq_true', Bool.not_eq_true, decide_eq_false_iff_not] at hc
  obtain ⟨ht, hor1, hor2⟩ := hc
  have hc1 : ¬ (field.required = true ∧ s = "") := by
    rcases hor1 with h | h
    · rw [h]; simp
    · exact fun hf => h hf.2
  have hc2 : ¬ ((((s.utf8ByteSize : Int) < field.min ∨
      (s.utf8ByteSize : Int) > field.max)) ∧ field.max ≠ 0) := by
    rcases hor2 with h | h
    · exact fun hf => hf.2 h
    · omega
  simp [validateFieldVal, ht, hc1, hc2]

theorem validateFieldVal_arr_ok (k : String) (field : FormField) (elems : List GoValue)
    (hc : constraintsOk field (GoValue.arr elems) = true) :
    validateFieldVal k field (GoValue.arr elems) = VRes.ok none := by
  simp only [constraintsOk, Bool.and_eq_true, decide_eq_true_eq, Bool.or_eq_true,
    Bool.not_eq_true'] at hc
  obtain ⟨ht, hor, hall⟩ := hc
  have hc1 : ¬ (field.required = true ∧ elems = []) := by
    rintro ⟨hreq, hnil⟩
    rcases hor with h | h
    · rw [hreq] at h; cases h
    · rw [hnil] at h; simp at h
  have hchk : checkObjElems k field.shape elems = VRes.ok () :=
    (checkObjElems_ok_iff k field.shape elems).mpr hall
  simp [validateFieldVal, ht, hchk]
  exact fun hreq hnil => hc1 ⟨hreq, hnil⟩

/-! ## Second-pass lemmas -/

theorem pass2_ok (fields : List (String × FormField)) :
    ∀ pay : Payload,
      (∀ kf ∈ fields, kf.2.required = true → (lookupKV pay kf.1).isSome = true) →
      (∀ kf ∈ fields, ∀ v, lookupKV pay kf.1 = some v → constraintsOk kf.2 v = true) →
      (fields.map Prod.fst).Nodup →
      ∃ p', pass2 fields pay = VRes.ok p' := by
  induction fields with
  | nil => exact fun pay _ _ _ => ⟨pay, rfl⟩
  | cons hd tl ih =>
      intro pay hreq hcon hnd
      obtain ⟨k0, f0⟩ := hd
      rw [List.map_cons, List.nodup_cons] at hnd
      have hne : ∀ kf ∈ tl, kf.1 ≠ k0 := by
        intro kf hkf heq
        exact hnd.1 (heq ▸ List.mem_map.mpr ⟨kf, hkf, rfl⟩)
      cases hp : lookupKV pay k0 with
      | none =>
          have hr0 : f0.required = false := by
            cases hf : f0.required with
            | false => rfl
            | true =>
                have := hreq (k0, f0) (List.mem_cons_self _ _) hf
                rw [hp] at this
                cases this
          obtain ⟨p', hp'⟩ := ih pay
            (fun kf hkf => hreq kf (List.mem_cons_of_mem _ hkf))
            (fun kf hkf => hcon kf (List.mem_cons_of_mem _ hkf)) hnd.2
          exact ⟨p', by simp [pass2, hp, hr0, hp']⟩
      | some v =>
          have hc : constraintsOk f0 v = true := hcon (k0, f0) (List.mem_cons_self _ _) v hp
          cases v with
          | num q =>
              have hv := validateFieldVal_num_ok k0 f0 q hc
              obtain ⟨p', hp'⟩ := ih (setKV pay k0 (GoValue.int (truncRat q)))
                (by
                  intro kf hkf hr
                  rw [lookupKV_setKV_ne pay k0 kf.1 _ (fun e => hne kf hkf e.symm)]
                  exact hreq kf (List.mem_cons_of_mem _ hkf) hr)
                (by
                  intro kf hkf v hv'
                  rw [lookupKV_setKV_ne pay k0 kf.1 _ (fun e => hne kf hkf e.symm)] at hv'
                  exact hcon kf (List.mem_cons_of_mem _ hkf) v hv') hnd.2
              exact ⟨p', by simp [pass2, hp, hv, hp']⟩
          | bool b =>
              have hv := validateFieldVal_bool_ok k0 f0 b hc
              obtain ⟨p', hp'⟩ := ih pay
                (fun kf hkf => hreq kf (List.mem_cons_of_mem _ hkf))
                (fun kf hkf => hcon kf (List.mem_cons_of_mem _ hkf)) hnd.2
              exact ⟨p', by simp [pass2, hp, hv, hp']⟩
          | str s =>
              have hv := validateFieldVal_str_ok k0 f0 s hc
              obtain ⟨p', hp'⟩ := ih pay
                (fun kf hkf => hreq kf (List.mem_cons_of_mem _ hkf))
                (fun kf hkf => hcon kf (List.mem_cons_of_mem _ hkf)) hnd.2
              exact ⟨p', by simp [pass2, hp, hv, hp']⟩
          | arr elems =>
              have hv := validateFieldVal_arr_ok k0 f0 elems hc
              obtain ⟨p', hp'⟩ := ih pay
                (fun kf hkf => hreq kf (List.mem_cons_of_mem _ hkf))
                (fun kf hkf => hcon kf (List.mem_cons_of_mem _ hkf)) hnd.2
              exact ⟨p', by simp [pass2, hp, hv, hp']⟩
          | int i => simp [constraintsOk] at hc
          | obj entries => simp [constraintsOk] at hc
          | null => simp [constraintsOk] at hc

theorem pass2_missing (k : String) (field : FormField) (fields : List (String × FormField)) :
    ∀ (pay p' : Payload),
      pass2 fields pay = VRes.ok p' → lookupKV fields k = some field →
      field.required = true →
      pass2 fields (eraseKey pay k) =
        VRes.err ⟨k, "missing required field " ++ goQuote k⟩ := by
  induction fields with
  | nil =>
      intro pay p' _ hl _
      simp [lookupKV] at hl
  | cons hd tl ih =>
      intro pay p' hok hl hr
      obtain ⟨k0, f0⟩ := hd
      by_cases hk : k0 = k
      · subst hk
        have hf : f0 = field := by simpa [lookupKV] using hl
        subst hf
        simp [pass2, lookupKV_eraseKey_self, hr]
      · have hl' : lookupKV tl k = some field := by simpa [lookupKV, hk] using hl
        cases hp : lookupKV pay k0 with
        | none =>
            have hp' : lookupKV (eraseKey pay k) k0 = none := by
              rw [lookupKV_eraseKey_ne pay k k0 hk]; exact hp
            cases hf : f0.required with
            | true => simp [pass2, hp, hf] at hok
            | false =>
                simp only [pass2, hp, hf, Bool.false_eq_true, if_false] at hok
                simp only [pass2, hp', hf, Bool.false_eq_true, if_false]
                exact ih pay p' hok hl' hr
        | some v =>
            have hp' : lookupKV (eraseKey pay k) k0 = some v := by
              rw [lookupKV_eraseKey_ne pay k k0 hk]; exact hp
            cases hv : validateFieldVal k0 f0 v with
            | ok u =>
                cases u with
                | none =>
                    simp only [pass2, hp, hv] at hok
                    simp only [pass2, hp', hv]
                    exact ih pay p' hok hl' hr
                | some nv =>
                    simp only [pass2, hp, hv] at hok
                    simp only [pass2, hp', hv]
                    rw [← eraseKey_setKV_comm pay k k0 nv hk]
                    exact ih (setKV pay k0 nv) p' hok hl' hr
            | err e => simp [pass2, hp, hv] at hok
            | panicked m => simp [pass2, hp, hv] at hok

theorem pass2_lookup_preserved (k : String) (fields : List (String × FormField)) :
    ∀ (pay p' : Payload),
      pass2 fields pay = VRes.ok p' → (∀ kf ∈ fields, kf.1 ≠ k) →
      lookupKV p' k = lookupKV pay k := by
  induction fields with
  | nil =>
      intro pay p' hok _
      simp only [pass2] at hok
      injection hok with h
      rw [← h]
  | cons hd tl ih =>
      intro pay p' hok hne
      obtain ⟨k0, f0⟩ := hd
      have hk0 : k0 ≠ k := hne (k0, f0) (List.mem_cons_self _ _)
      have hne' : ∀ kf ∈ tl, kf.1 ≠ k := fun kf hkf => hne kf (List.mem_cons_of_mem _ hkf)
      cases hp : lookupKV pay k0 with
      | none =>
          cases hf : f0.required with
          | true => simp [pass2, hp, hf] at hok
          | false =>
              simp only [pass2, hp, hf, Bool.false_eq_true, if_false] at hok
              exact ih pay p' hok hne'
      | some v =>
          cases hv : validateFieldVal k0 f0 v with
          | ok u =>
              cases u with
              | none =>
                  simp only [pass2, hp, hv] at hok
                  exact ih pay p' hok hne'
              | some nv =>
                  simp only [pass2, hp, hv] at hok
                  rw [ih (setKV pay k0 nv) p' hok hne']
                  exact lookupKV_setKV_ne pay k0 k nv hk0
          | err e => simp [pass2, hp, hv] at hok
          | panicked m => simp [pass2, hp, hv] at hok

theorem pass2_int (k : String) (field : FormField) (q : Rat)
    (fields : List (String × FormField)) :
    ∀ (pay p' : Payload),
      pass2 fields pay = VRes.ok p' → (fields.map Prod.fst).Nodup →
      lookupKV fields k = some field → field.type = FormFieldType.int →
      lookupKV pay k = some (GoValue.num q) →
      lookupKV p' k = some (GoValue.int (truncRat q)) ∧
        field.min ≤ truncRat q ∧ truncRat q ≤ field.max := by
  induction fields with
  | nil =>
      intro pay p' _ _ hl _ _
      simp [lookupKV] at hl
  | cons hd tl ih =>
      intro pay p' hok hnd hl ht hp
      obtain ⟨k0, f0⟩ := hd
      rw [List.map_cons, List.nodup_cons] at hnd
      by_cases hk : k0 = k
      · subst hk
        have hf : f0 = field := by simpa [lookupKV] using hl
        subst hf
        have hne' : ∀ kf ∈ tl, kf.1 ≠ k0 := by
          intro kf hkf heq
          exact hnd.1 (heq ▸ List.mem_map.mpr ⟨kf, hkf, rfl⟩)
        simp only [pass2, hp] at hok
        by_cases hrange : truncRat q < f0.min ∨ truncRat q > f0.max
        · simp [validateFieldVal, ht, hrange] at hok
        · simp only [validateFieldVal, ht, if_neg hrange] at hok
          refine ⟨?_, by omega, by omega⟩
          rw [pass2_lookup_preserved k0 tl _ p' hok hne']
          exact lookupKV_setKV_self pay k0 _
      · have hl' : lookupKV tl k = some field := by simpa [lookupKV, hk] using hl
        cases hp0 : lookupKV pay k0 with
        | none =>
            cases hf : f0.required with
            | true => simp [pass2, hp0, hf] at hok
            | false =>
                simp only [pass2, hp0, hf, Bool.false_eq_true, if_false] at hok
                exact ih pay p' hok hnd.2 hl' ht hp
        | some v =>
            cases hv : validateFieldVal k0 f0 v with
            | ok u =>
                cases u with
                | none =>
                    simp only [pass2, hp0, hv] at hok
                    exact ih pay p' hok hnd.2 hl' ht hp
                | some nv =>
                    simp only [pass2, hp0, hv] at hok
                    refine ih (setKV pay k0 nv) p' hok hnd.2 hl' ht ?_
                    rw [lookupKV_setKV_ne pay k0 k nv hk]
                    exact hp
            | err e => simp [pass2, hp0, hv] at hok
            | panicked m => simp [pass2, hp0, hv] at hok

/-! ## Limiter lemmas -/

theorem allowRun_append (l : fixedWindowLimiter) (key : String) (u v : List Int) :
    allowRun l key (u ++ v) =
      allowRun l key u ++ allowRun (allowRunState l key u) key v := by
  induction u generalizing l with
  | nil => simp [allowRun, allowRunState]
  | cons t ts ih => simp [allowRun, allowRunState, ih]

/-- While the bucket for `key` is live (`¬ resetAt < t`) and below the
limit, every call allows and just counts up. -/
theorem allowRun_true_phase (key : String) (ts : List Int) :
    ∀ (l : fixedWindowLimiter) (ra c : Int),
      lookupKV l.buckets key = some ⟨ra, c⟩ →
      (∀ t ∈ ts, t ≤ ra) →
      c + ts.length ≤ l.limit →
      allowRun l key ts = List.replicate ts.length true ∧
        (allowRunState l key ts).limit = l.limit ∧
        lookupKV (allowRunState l key ts).buckets key = some ⟨ra, c + ts.length⟩ := by
  induction ts with
  | nil =>
      intro l ra c hb _ _
      simpa [allowRun, allowRunState] using hb
  | cons t ts ih =>
      intro l ra c hb hts hcle
      have ht : t ≤ ra := hts t (by simp)
      have hnotafter : ¬ ra < t := not_lt.mpr ht
      have hclt : c < l.limit := by
        have h0 : (0 : Int) ≤ ts.length := Int.ofNat_nonneg _
        have : c + 1 + ts.length ≤ l.limit := by
          simpa [List.length_cons, add_comm, add_left_comm, add_assoc] using hcle
        omega
      have hnotge : ¬ c ≥ l.limit := not_le.mpr hclt
      have hstep : allow l t key =
          (true, { l with buckets := setKV l.buckets key ⟨ra, c + 1⟩ }) := by
        simp [allow, hb, hnotafter, hnotge]
      have hb' : lookupKV (setKV l.buckets key ⟨ra, c + 1⟩) key = some ⟨ra, c + 1⟩ :=
        lookupKV_setKV_self _ _ _
      have hrec := ih { l with buckets := setKV l.buckets key ⟨ra, c + 1⟩ } ra (c + 1)
        hb' (fun t' ht' => hts t' (by simp [ht'])) (by simp at hcle ⊢; omega)
      refine ⟨?_, ?_, ?_⟩
      · simp only [allowRun, hstep, List.length_cons, List.replicate_succ]
        exact congrArg (true :: ·) hrec.1
      · simpa [allowRunState, hstep] using hrec.2.1
      · simp only [allowRunState, hstep]
        have := hrec.2.2
        simpa [add_comm, add_left_comm, add_assoc] using this

theorem allow_deny_at_limit (l : fixedWindowLimiter) (key : String) (ra c t : Int)
    (hb : lookupKV l.buckets key = some ⟨ra, c⟩) (ht : t ≤ ra)
    (hge : c ≥ l.limit) : allow l t key = (false, l) := by
  have hnotafter : ¬ ra < t := not_lt.mpr ht
  simp [allow, hb, hnotafter, hge]

/-- Claim C1 (amended): a limiter constructed with `limit ≥ 1` and
`window ≥ 0` allows the first `limit` calls to `allow(key)` made within
one window and denies the `(limit+1)`-th; at `limit = 0` the very first
call to `allow(key)` returns `true` (the creation path does not consult
the limit) and the second call within the window returns `false`. -/
theorem limiter_first_window_quota (L W t1 tl : Int) (key : String) (rest : List Int)
    (hL : 1 ≤ L) (hW : 0 ≤ W)
    (hlen : rest.length = (L - 1).toNat)
    (hrest : ∀ t ∈ rest, t ≤ t1 + W) (htl : tl ≤ t1 + W) :
    (∃ l, newFixedWindowLimiter L W = Except.ok l ∧
        allowRun l key (t1 :: (rest ++ [tl])) =
          true :: (List.replicate rest.length true ++ [false])) ∧
    (∀ l0, newFixedWindowLimiter 0 W = Except.ok l0 →
        allowRun l0 key [t1, tl] = [true, false]) := by
  constructor
  · refine ⟨{ limit := L, window := W, buckets := [] }, ?_, ?_⟩
    · simp [newFixedWindowLimiter, not_lt.mpr (le_trans zero_le_one hL), not_lt.mpr hW]
    · have hstep1 : allow { limit := L, window := W, buckets := [] } t1 key =
          (true, { limit := L, window := W, buckets := [(key, ⟨t1 + W, 1⟩)] }) := by
        simp [allow, lookupKV, setKV]
      set l1 : fixedWindowLimiter :=
        { limit := L, window := W, buckets := [(key, ⟨t1 + W, 1⟩)] } with hl1
      have hlook1 : lookupKV l1.buckets key = some ⟨t1 + W, 1⟩ := by
        simp [hl1, lookupKV]
      have hcount : (1 : Int) + rest.length ≤ l1.limit := by
        have : ((rest.length : Int)) = L - 1 := by
          rw [hlen]; exact Int.toNat_of_nonneg (by omega)
        simp [hl1, this]
      obtain ⟨hrun, hlim, hlookend⟩ :=
        allowRun_true_phase key rest l1 (t1 + W) 1 hlook1 hrest hcount
      have hdeny : allow (allowRunState l1 key rest) tl key =
          (false, allowRunState l1 key rest) := by
        refine allow_deny_at_limit _ key (t1 + W) (1 + rest.length) tl hlookend htl ?_
        have : ((rest.length : Int)) = L - 1 := by
          rw [hlen]; exact Int.toNat_of_nonneg (by omega)
        rw [hlim, this]
        simp [hl1]
      calc allowRun { limit := L, window := W, buckets := [] } key (t1 :: (rest ++ [tl]))
          = true :: allowRun l1 key (rest ++ [tl]) := by
            simp [allowRun, hstep1]
        _ = true :: (allowRun l1 key rest ++
              allowRun (allowRunState l1 key rest) key [tl]) := by
            rw [allowRun_append]
        _ = true :: (List.replicate rest.length true ++ [false]) := by
            rw [hrun]
            simp [allowRun, hdeny]
  · intro l0 h0
    have hl0 : l0 = { limit := 0, window := W, buckets := [] } := by
      simp [newFixedWindowLimiter, not_lt.mpr hW] at h0
      exact h0.symm
    subst hl0
    have hstep1 : allow { limit := (0 : Int), window := W, buckets := [] } t1 key =
        (true, { limit := (0 : Int), window := W, buckets := [(key, ⟨t1 + W, 1⟩)] }) := by
      simp [allow, lookupKV, setKV]
    have hstep2 : allow
        { limit := (0 : Int), window := W, buckets := [(key, ⟨t1 + W, 1⟩)] } tl key =
        (false, { limit := (0 : Int), window := W, buckets := [(key, ⟨t1 + W, 1⟩)] }) := by
      refine allow_deny_at_limit _ key (t1 + W) 1 tl ?_ htl (by norm_num)
      simp [lookupKV]
    simp [allowRun, hstep1, hstep2]

/-- Witness for claim C1's amended theorem at `limit = 2`,
`window = 10`, call instants `0, 5, 7`. -/
theorem limiter_first_window_quota_witness :
    (∃ l, newFixedWindowLimiter 2 10 = Except.ok l ∧
        allowRun l "k" (0 :: ([5] ++ [7])) =
          true :: (List.replicate [5].length true ++ [false])) ∧
    (∀ l0, newFixedWindowLimiter 0 10 = Except.ok l0 →
        allowRun l0 "k" [0, 7] = [true, false]) :=
  limiter_first_window_quota 2 10 0 7 "k" [5] (by decide) (by decide) (by decide)
    (by decide) (by decide)

/-- Counterexample to claim C1 as stated: a limiter constructed with
`limit = 0` and `window = 60` returns `true`, not `false`, on the very
first call to `allow(key)`. -/
theorem limiter_zero_limit_first_call_counterexample :
    (newFixedWindowLimiter 0 60).map (fun l => (allow l 0 "k").1) = Except.ok true := rfl

/-- Claim C6: when a bucket exists for the key and its `resetAt` has
already passed, `allow` replaces the bucket with `count = 1`,
`resetAt = now + window`, and returns `true`, regardless of the expired
window's count. -/
theorem allow_expired_window_resets (l : fixedWindowLimiter) (key : String) (b : bucket)
    (now : Int) (hb : lookupKV l.buckets key = some b) (hpast : b.resetAt < now) :
    allow l now key =
      (true, { l with buckets := setKV l.buckets key ⟨now + l.window, 1⟩ }) := by
  simp [allow, hb, hpast]

/-- Witness for claim C6's theorem: a bucket exhausted at count 99 whose
window expired at instant 10 is reset by a call at instant 11. -/
theorem allow_expired_window_resets_witness :
    allow ⟨5, 60, [("k", ⟨10, 99⟩)]⟩ 11 "k" =
      (true, { (⟨5, 60, [("k", ⟨10, 99⟩)]⟩ : fixedWindowLimiter) with
        buckets := setKV [("k", ⟨10, 99⟩)] "k" ⟨11 + 60, 1⟩ }) :=
  allow_expired_window_resets ⟨5, 60, [("k", ⟨10, 99⟩)]⟩ "k" ⟨10, 99⟩ 11 rfl (by decide)

/-! ## Validator claims -/

/-- Claim C2: a payload whose keys all name declared fields with type-
and constraint-valid values and which contains every required field
passes validation; starting from any payload that passes validation,
removing a required declared field makes `validatePayload` return a
`payloadError` naming that field with a "missing required field"
message, and inserting a key that names no declared field makes it
return a `payloadError` naming that key with an "unknown field"
message. -/
theorem validatePayload_required_and_unknown (form : Form) (payload : Payload)
    (hnodup : (form.fields.map Prod.fst).Nodup) :
    (ValidPayload form payload → ∃ p', validatePayload form payload = VRes.ok p') ∧
    (∀ p', validatePayload form payload = VRes.ok p' →
      (∀ k field, lookupKV form.fields k = some field → field.required = true →
        validatePayload form (eraseKey payload k) =
          VRes.err ⟨k, "missing required field " ++ goQuote k⟩) ∧
      (∀ (u : String) (v : GoValue) (pay₁ pay₂ : Payload),
        payload = pay₁ ++ pay₂ → lookupKV form.fields u = none →
        validatePayload form (pay₁ ++ (u, v) :: pay₂) =
          VRes.err ⟨u, "unknown field " ++ goQuote u⟩)) := by
  constructor
  · rintro ⟨hvals, hreq⟩
    have h1 : pass1 form.fields payload = none := by
      rw [pass1_none_iff]
      intro kv hkv
      obtain ⟨field, hf, hd, _⟩ := hvals kv hkv
      exact (checkKnownAndType_none_iff _ _ _).mpr ⟨field, hf, hd⟩
    have hcon : ∀ kf ∈ form.fields, ∀ v, lookupKV payload kf.1 = some v →
        constraintsOk kf.2 v = true := by
      intro kf hkf v hv
      obtain ⟨field, hf, _, hc⟩ := hvals (kf.1, v) (lookupKV_mem _ _ _ hv)
      have hkv2 : lookupKV form.fields kf.1 = some kf.2 :=
        lookupKV_of_mem_nodup form.fields kf.1 kf.2 (by simpa using hkf) hnodup
      rw [hf] at hkv2
      injection hkv2 with h
      rw [← h]
      exact hc
    obtain ⟨p', hp'⟩ := pass2_ok form.fields payload hreq hcon hnodup
    exact ⟨p', by simp [validatePayload, h1, hp']⟩
  · intro p' hok
    have h1 : pass1 form.fields payload = none := by
      cases h : pass1 form.fields payload with
      | none => rfl
      | some e => simp [validatePayload, h] at hok
    have h2 : pass2 form.fields payload = VRes.ok p' := by
      simpa [validatePayload, h1] using hok
    constructor
    · intro k field hf hr
      have hmiss := pass2_missing k field form.fields payload p' h2 hf hr
      have h1' : pass1 form.fields (eraseKey payload k) = none := by
        rw [pass1_none_iff] at h1 ⊢
        intro kv hkv
        exact h1 kv (List.mem_of_mem_filter hkv)
      simp [validatePayload, h1', hmiss]
    · intro u v pay₁ pay₂ hsplit hu
      have h11 : pass1 form.fields pay₁ = none := by
        rw [pass1_none_iff] at h1 ⊢
        intro kv hkv
        exact h1 kv (hsplit ▸ List.mem_append_left _ hkv)
      have hstep : pass1 form.fields (pay₁ ++ (u, v) :: pay₂) =
          some ⟨u, "unknown field " ++ goQuote u⟩ := by
        rw [pass1_append_none _ _ _ h11]
        simp [pass1, checkKnownAndType, hu]
      simp [validatePayload, hstep]

/-- Witness for claim C2's theorem: a one-field contact form; deleting
the required `name` field yields the missing-field error naming it, and
adding an undeclared `extra` key yields the unknown-field error naming
it. -/
theorem validatePayload_required_and_unknown_witness :
    validatePayload ⟨"contact", "", [("name", ⟨[], "", "", FormFieldType.string, 0, 100, true⟩)], 0⟩
        (eraseKey [("name", GoValue.str "Ada")] "name") =
      VRes.err ⟨"name", "missing required field " ++ goQuote "name"⟩ ∧
    validatePayload ⟨"contact", "", [("name", ⟨[], "", "", FormFieldType.string, 0, 100, true⟩)], 0⟩
        ([("name", GoValue.str "Ada")] ++ [("extra", GoValue.bool true)]) =
      VRes.err ⟨"extra", "unknown field " ++ goQuote "extra"⟩ := by
  have h := validatePayload_required_and_unknown
    ⟨"contact", "", [("name", ⟨[], "", "", FormFieldType.string, 0, 100, true⟩)], 0⟩
    [("name", GoValue.str "Ada")] (by decide)
  have h2 := h.2 [("name", GoValue.str "Ada")] rfl
  exact ⟨h2.1 "name" ⟨[], "", "", FormFieldType.string, 0, 100, true⟩ rfl rfl,
    h2.2 "extra" (GoValue.bool true) [("name", GoValue.str "Ada")] [] (by simp) rfl⟩

/-- Claim C4 (amended): for a declared string field present in the
payload, when `max ≠ 0` validation fails with an error naming the field
exactly when the value is empty while required or the value's UTF-8 byte
count (Go `len`) lies outside `[min, max]`; when `max = 0` no length
bound at all is enforced and only the required-empty check applies.  The
bound is measured in bytes of the submitted string, not characters. -/
theorem validatePayload_string_bounds (fid ftok k : String) (maxAge : Int)
    (field : FormField) (s : String) (ht : field.type = FormFieldType.string) :
    (field.max ≠ 0 →
      ((∃ e, validatePayload ⟨fid, ftok, [(k, field)], maxAge⟩ [(k, GoValue.str s)] =
          VRes.err e ∧ e.field = k) ↔
        ((field.required = true ∧ s = "") ∨
          ((s.utf8ByteSize : Int) < field.min ∨ (s.utf8ByteSize : Int) > field.max)))) ∧
    (field.max = 0 →
      (validatePayload ⟨fid, ftok, [(k, field)], maxAge⟩ [(k, GoValue.str s)] =
          VRes.ok [(k, GoValue.str s)] ↔ ¬ (field.required = true ∧ s = ""))) := by
  have hpass1 : pass1 [(k, field)] [(k, GoValue.str s)] = none := by
    simp [pass1, checkKnownAndType, lookupKV, ht]
  by_cases hc1 : field.required = true ∧ s = ""
  · have hv : validateFieldVal k field (GoValue.str s) =
        VRes.err ⟨k, "field " ++ goQuote k ++ " is required but its value is empty"⟩ := by
      obtain ⟨hr, hs⟩ := hc1
      subst hs
      simp [validateFieldVal, ht, hr]
    have hres : validatePayload ⟨fid, ftok, [(k, field)], maxAge⟩ [(k, GoValue.str s)] =
        VRes.err ⟨k, "field " ++ goQuote k ++ " is required but its value is empty"⟩ := by
      simp [validatePayload, hpass1, pass2, lookupKV, hv]
    refine ⟨fun _ => ⟨fun _ => Or.inl hc1, fun _ => ⟨_, hres, rfl⟩⟩, fun _ => ?_⟩
    constructor
    · intro h
      rw [hres] at h
      cases h
    · intro h
      exact absurd hc1 h
  · by_cases hc2 : (((s.utf8ByteSize : Int) < field.min ∨
        (s.utf8ByteSize : Int) > field.max) ∧ field.max ≠ 0)
    · have hv : validateFieldVal k field (GoValue.str s) =
          VRes.err ⟨k, "field " ++ goQuote k ++ " must be between " ++ toString field.min ++
            " and " ++ toString field.max ++ " characters but it is " ++
            toString s.utf8ByteSize ++ " characters"⟩ := by
        simp [validateFieldVal, ht, hc1, hc2]
      have hres : validatePayload ⟨fid, ftok, [(k, field)], maxAge⟩ [(k, GoValue.str s)] =
          VRes.err ⟨k, "field " ++ goQuote k ++ " must be between " ++ toString field.min ++
            " and " ++ toString field.max ++ " characters but it is " ++
            toString s.utf8ByteSize ++ " characters"⟩ := by
        simp [validatePayload, hpass1, pass2, lookupKV, hv]
      refine ⟨fun _ => ⟨fun _ => Or.inr hc2.1, fun _ => ⟨_, hres, rfl⟩⟩,
        fun hmax => absurd hmax hc2.2⟩
    · have hv : validateFieldVal k field (GoValue.str s) = VRes.ok none := by
        simp [validateFieldVal, ht, hc1, hc2]
      have hres : validatePayload ⟨fid, ftok, [(k, field)], maxAge⟩ [(k, GoValue.str s)] =
          VRes.ok [(k, GoValue.str s)] := by
        simp [validatePayload, hpass1, pass2, lookupKV, hv]
      refine ⟨fun hmax => ?_, fun _ => ⟨fun _ => hc1, fun _ => hres⟩⟩
      constructor
      · rintro ⟨e, he, _⟩
        rw [hres] at he
        cases he
      · rintro (h | h)
        · exact absurd h hc1
        · exact absurd ⟨h, hmax⟩ hc2

/-- Witness for claim C4's amended theorem: a 3–5 byte bound rejects the
two-byte string "ab". -/
theorem validatePayload_string_bounds_witness :
    ∃ e, validatePayload ⟨"f", "", [("bio", ⟨[], "", "", FormFieldType.string, 3, 5, false⟩)], 0⟩
        [("bio", GoValue.str "ab")] = VRes.err e ∧ e.field = "bio" := by
  have h := (validatePayload_string_bounds "f" "" "bio" 0
    ⟨[], "", "", FormFieldType.string, 3, 5, false⟩ "ab" rfl).1 (by decide)
  exact h.mpr (Or.inr (Or.inl (by decide)))

/-- Counterexample to claim C4 as stated: the two-byte, one-character
string "ä" is rejected by a `[0, 1]` bound even though its character
count 1 lies inside the bound — the code measures Go `len` (UTF-8
bytes), not characters. -/
theorem validatePayload_char_count_counterexample :
    (∃ e, validatePayload
        ⟨"f", "", [("msg", ⟨[], "", "", FormFieldType.string, 0, 1, false⟩)], 0⟩
        [("msg", GoValue.str "ä")] = VRes.err e ∧ e.field = "msg") ∧
    "ä".length = 1 ∧ (0 : Int) ≤ ("ä".length : Int) ∧ ("ä".length : Int) ≤ 1 := by
  exact ⟨⟨_, rfl, rfl⟩, by decide, by decide, by decide⟩

/-- Claim C7: an object-array field whose array is empty while required,
or any of whose elements is not an object, contains a key outside the
declared shape, lacks a shape key, or holds a sub-value whose dynamic
type differs from the shape's declared primitive type, fails validation
with an error naming the field (the shape itself holding only primitive
types, as the data model requires). -/
theorem validateObjects_shape_enforced (k : String) (field : FormField)
    (elems : List GoValue) (ht : field.type = FormFieldType.objects)
    (hshape : ∀ st ∈ field.shape, st.2 ≠ FormFieldType.objects)
    (hbad : (field.required = true ∧ elems = []) ∨
      (∃ a ∈ elems, ∀ entries, a ≠ GoValue.obj entries) ∨
      (∃ entries, GoValue.obj entries ∈ elems ∧
        ∃ nv ∈ entries, lookupKV field.shape nv.1 = none) ∨
      (∃ entries, GoValue.obj entries ∈ elems ∧
        ∃ st ∈ field.shape, lookupKV entries st.1 = none) ∨
      (∃ entries, GoValue.obj entries ∈ elems ∧
        ∃ nv ∈ entries, ∃ t, lookupKV field.shape nv.1 = some t ∧
          primMatches nv.2 t = false)) :
    ∃ e, validateFieldVal k field (GoValue.arr elems) = VRes.err e ∧ e.field = k := by
  by_cases hre : field.required = true ∧ elems = []
  · refine ⟨⟨k, "field " ++ goQuote k ++ " is required but its value is empty"⟩, ?_, rfl⟩
    obtain ⟨hr, hnil⟩ := hre
    subst hnil
    simp [validateFieldVal, ht, hr]
  · have hbad2 : ∃ a ∈ elems, objElemOk field.shape a = false := by
      rcases hbad with h | h | h | h | h
      · exact absurd h hre
      · obtain ⟨a, ha, hno⟩ := h
        cases a with
        | obj entries => exact absurd rfl (hno entries)
        | bool b => exact ⟨_, ha, rfl⟩
        | num x => exact ⟨_, ha, rfl⟩
        | int i => exact ⟨_, ha, rfl⟩
        | str s => exact ⟨_, ha, rfl⟩
        | arr xs => exact ⟨_, ha, rfl⟩
        | null => exact ⟨_, ha, rfl⟩
      · obtain ⟨entries, hmem, nv, hnv, hnone⟩ := h
        have hent : entryTypeOk field.shape nv = false := by
          simp [entryTypeOk, hnone]
        have hall : entries.all (entryTypeOk field.shape) = false := by
          cases hall : entries.all (entryTypeOk field.shape) with
          | false => rfl
          | true =>
              have := List.all_eq_true.mp hall nv hnv
              simp [hent] at this
        exact ⟨_, hmem, by simp [objElemOk, hall]⟩
      · obtain ⟨entries, hmem, st, hst, hnone⟩ := h
        have hmiss : ((lookupKV entries st.1).isSome : Bool) = false := by
          rw [hnone]
          rfl
        have hall : field.shape.all (fun st => (lookupKV entries st.1).isSome) = false := by
          cases hall : field.shape.all (fun st => (lookupKV entries st.1).isSome) with
          | false => rfl
          | true =>
              have := List.all_eq_true.mp hall st hst
              simp [hmiss] at this
        exact ⟨_, hmem, by simp [objElemOk, hall]⟩
      · obtain ⟨entries, hmem, nv, hnv, t, hsome, hpm⟩ := h
        have hent : entryTypeOk field.shape nv = false := by
          simp [entryTypeOk, hsome, hpm]
        have hall : entries.all (entryTypeOk field.shape) = false := by
          cases hall : entries.all (entryTypeOk field.shape) with
          | false => rfl
          | true =>
              have := List.all_eq_true.mp hall nv hnv
              simp [hent] at this
        exact ⟨_, hmem, by simp [objElemOk, hall]⟩
    obtain ⟨a, ha, hfalse⟩ := hbad2
    have hallf : elems.all (objElemOk field.shape) = false := by
      cases hall : elems.all (objElemOk field.shape) with
      | false => rfl
      | true =>
          have := List.all_eq_true.mp hall a ha
          simp [hfalse] at this
    have hchk : checkObjElems k field.shape elems ≠ VRes.ok () := by
      intro hok
      have := (checkObjElems_ok_iff _ _ _).mp hok
      rw [hallf] at this
      cases this
    cases hres : checkObjElems k field.shape elems with
    | ok u =>
        cases u
        exact absurd hres hchk
    | panicked m => exact absurd hres (checkObjElems_no_panic k field.shape elems m hshape)
    | err e =>
        refine ⟨e, ?_, checkObjElems_err_field k field.shape elems e hres⟩
        have hre' : ¬ (field.required = true ∧ elems.isEmpty = true) := by
          rintro ⟨hr, hnil⟩
          exact hre ⟨hr, by simpa using hnil⟩
        simp [validateFieldVal, ht, hres]
        intro hr hnil
        exact absurd ⟨hr, by simp [hnil]⟩ hre'

/-- Witness for claim C7's theorem: an element whose sub-value `a` is a
number where the shape declares a string is rejected with an error
naming the field. -/
theorem validateObjects_shape_enforced_witness :
    ∃ e, validateFieldVal "items"
        ⟨[("a", FormFieldType.string)], "", "", FormFieldType.objects, 0, 10, true⟩
        (GoValue.arr [GoValue.obj [("a", GoValue.num 1)]]) =
      VRes.err e ∧ e.field = "items" := by
  refine validateObjects_shape_enforced "items" _ _ rfl (by decide) ?_
  exact Or.inr (Or.inr (Or.inr (Or.inr ⟨[("a", GoValue.num 1)], by simp,
    ("a", GoValue.num 1), by simp, FormFieldType.string, rfl, rfl⟩)))

/-- Claim C10: `validatePayload` writes the integer truncation of a
decoded number back into the payload map for every declared int field,
so a fractional JSON number is accepted whenever its truncation lies in
`[min, max]` and every later consumer observes the truncated integer. -/
theorem validatePayload_int_truncation (form : Form) (payload p' : Payload) (k : String)
    (field : FormField) (q : Rat)
    (hnodup : (form.fields.map Prod.fst).Nodup)
    (hf : lookupKV form.fields k = some field)
    (ht : field.type = FormFieldType.int)
    (hp : lookupKV payload k = some (GoValue.num q))
    (hok : validatePayload form payload = VRes.ok p') :
    lookupKV p' k = some (GoValue.int (truncRat q)) ∧
      field.min ≤ truncRat q ∧ truncRat q ≤ field.max := by
  have h1 : pass1 form.fields payload = none := by
    cases h : pass1 form.fields payload with
    | none => rfl
    | some e => simp [validatePayload, h] at hok
  have h2 : pass2 form.fields payload = VRes.ok p' := by
    simpa [validatePayload, h1] using hok
  exact pass2_int k field q form.fields payload p' h2 hnodup hf ht hp

/-- Witness for claim C10's theorem: the fractional number 39/10
submitted for an int field bounded by `[0, 5]` is accepted and stored as
the truncated integer 3. -/
theorem validatePayload_int_truncation_witness :
    lookupKV [("n", GoValue.int 3)] "n" = some (GoValue.int (truncRat (mkRat 39 10))) ∧
      (0 : Int) ≤ truncRat (mkRat 39 10) ∧ truncRat (mkRat 39 10) ≤ 5 :=
  validatePayload_int_truncation
    ⟨"f", "", [("n", ⟨[], "", "", FormFieldType.int, 0, 5, true⟩)], 0⟩
    [("n", GoValue.num (mkRat 39 10))] [("n", GoValue.int 3)] "n"
    ⟨[], "", "", FormFieldType.int, 0, 5, true⟩ (mkRat 39 10)
    (by decide) rfl rfl rfl rfl

/-- Claim C9: a request body holding one JSON object followed by any
further JSON value is rejected with 400 Bad Request before validation or
notification run, and a body of exactly one JSON object that passes
validation and whose notifier dispatch succeeds yields 200 with body
`accepted`. -/
theorem submitForm_single_object (form : Form) (entries : Payload) (notifyOk : Bool) :
    (∀ (w : GoValue) (rest : List GoValue),
      submitForm form (GoValue.obj entries :: w :: rest) notifyOk =
        httpError "Bad Request" 400) ∧
    (∀ p', validatePayload form entries = VRes.ok p' →
      submitForm form [GoValue.obj entries] true =
        { status := 200, headers := [], body := "accepted" }) := by
  constructor
  · intro w rest
    simp [submitForm]
  · intro p' hok
    simp [submitForm, hok]

/-- Witness for claim C9's theorem: a valid single-object body is
accepted with 200, and the same body followed by a stray JSON value is
rejected with 400. -/
theorem submitForm_single_object_witness :
    submitForm ⟨"contact", "", [("name", ⟨[], "", "", FormFieldType.string, 0, 100, true⟩)], 0⟩
        [GoValue.obj [("name", GoValue.str "Ada")]] true =
      { status := 200, headers := [], body := "accepted" } ∧
    submitForm ⟨"contact", "", [("name", ⟨[], "", "", FormFieldType.string, 0, 100, true⟩)], 0⟩
        [GoValue.obj [("name", GoValue.str "Ada")], GoValue.null] true =
      httpError "Bad Request" 400 :=
  ⟨(submitForm_single_object _ _ true).2 [("name", GoValue.str "Ada")] rfl,
    (submitForm_single_object _ _ true).1 GoValue.null []⟩

/-! ## Middleware claims -/

/-- Claim C3: in the CORS-enforcement stage a malformed path (empty,
`/`, or not absolute) yields 404; an unregistered path yields 403; when
the tenant's allowed-origin set has no wildcard, a present non-empty
`Origin` header equal to no entry of the set yields 403 and the inner
handler is not invoked (`reject`); and every passing request gets
`Access-Control-Allow-Origin` echoing the request's `Origin` header and
`Vary: Origin`. -/
theorem corsByPath_policy (paths : List (String × pathInfo)) (path origin : String) :
    ((path = "" ∨ path = "/" ∨ hasPrefixGo path "/" = false) →
      corsByPath paths path origin = StageResult.reject 404) ∧
    (hasPrefixGo path "/" = true → path ≠ "/" → lookupKV paths path = none →
      corsByPath paths path origin = StageResult.reject 403) ∧
    (∀ info, hasPrefixGo path "/" = true → path ≠ "/" →
      lookupKV paths path = some info →
      info.allowedOrigins.contains "*" = false → origin ≠ "" →
      info.allowedOrigins.contains origin = false →
      corsByPath paths path origin = StageResult.reject 403) ∧
    (∀ hdrs, corsByPath paths path origin = StageResult.pass hdrs →
      hdrs = [("Access-Control-Allow-Origin", origin), ("Vary", "Origin")]) := by
  refine ⟨?_, ?_, ?_, ?_⟩
  · rintro (h | h | h) <;> simp [corsByPath, h]
  · intro hstart hslash hlook
    have hne : path ≠ "" := by
      intro e
      rw [e] at hstart
      exact absurd hstart (by decide)
    simp [corsByPath, hne, hslash, hstart, hlook]
  · intro info hstart hslash hlook hwild horigin hcontains
    have hne : path ≠ "" := by
      intro e
      rw [e] at hstart
      exact absurd hstart (by decide)
    have hwild' : "*" ∉ info.allowedOrigins := by simpa using hwild
    have hcontains' : origin ∉ info.allowedOrigins := by simpa using hcontains
    simp [corsByPath, hne, hslash, hstart, hlook, horigin, hwild', hcontains']
  · intro hdrs h
    simp only [corsByPath] at h
    repeat' split at h
    all_goals first
      | rfl
      | (injection h with h2; exact h2.symm)
      | cases h

/-- Witness for claim C3's theorem: a registered path without wildcard
origins rejects a non-matching `Origin` header with 403. -/
theorem corsByPath_policy_witness :
    corsByPath [("/v1/forms/a/c", ⟨"a", ["https://good.example"], "tok"⟩)]
      "/v1/forms/a/c" "https://evil.example" = StageResult.reject 403 :=
  (corsByPath_policy _ _ _).2.2.1 ⟨"a", ["https://good.example"], "tok"⟩
    (by decide) (by decide) rfl (by decide) (by decide) (by decide)

/-- Claim C5: the token-verification stage passes every `OPTIONS`
request straight to the inner handler; on any other request on a
registered (absolute, non-root) path whose tenant token is non-empty it
responds 401 with `WWW-Authenticate` naming the token header when the
`X-Bifrost-Token` header is absent or mismatched (the limiter state and
inner handler untouched), and invokes the inner handler when the header
matches or the tenant token is empty. -/
theorem verifyToken_gating (paths : List (String × pathInfo)) (inner : Handler)
    (r : Request) (l : fixedWindowLimiter) :
    (r.method = "OPTIONS" → verifyTokenStage paths inner r l = inner r l) ∧
    (∀ info, r.method ≠ "OPTIONS" → hasPrefixGo r.path "/" = true → r.path ≠ "/" →
      lookupKV paths r.path = some info →
      ((info.token ≠ "" → headerGet r siteTokenHeader ≠ info.token →
          verifyTokenStage paths inner r l = (unauthorizedResp, l)) ∧
       (info.token ≠ "" → headerGet r siteTokenHeader = info.token →
          verifyTokenStage paths inner r l = inner r l) ∧
       (info.token = "" → verifyTokenStage paths inner r l = inner r l))) := by
  constructor
  · intro h
    simp [verifyTokenStage, h]
  · intro info hm hstart hslash hlook
    have hne : r.path ≠ "" := by
      intro e
      rw [e] at hstart
      exact absurd hstart (by decide)
    refine ⟨?_, ?_, ?_⟩
    · intro htok hhdr
      by_cases hempty : headerGet r siteTokenHeader = ""
      · simp [verifyTokenStage, hm, hne, hslash, hstart, hlook, htok, hempty]
      · simp [verifyTokenStage, hm, hne, hslash, hstart, hlook, htok, hempty, hhdr]
    · intro htok hhdr
      have hne2 : headerGet r siteTokenHeader ≠ "" := by
        rw [hhdr]
        exact htok
      simp [verifyTokenStage, hm, hne, hslash, hstart, hlook, htok, hne2, hhdr]
    · intro htok
      simp [verifyTokenStage, hm, hne, hslash, hstart, hlook, htok]

/-- Witness for claim C5's theorem: a POST without the token header on a
token-protected path is answered 401 with the limiter state untouched. -/
theorem verifyToken_gating_witness :
    verifyTokenStage [("/v1/forms/acme/contact", ⟨"acme", ["*"], "sekret"⟩)]
        (fun _ l => ({ status := 200, headers := [], body := "inner" }, l))
        ⟨"POST", "/v1/forms/acme/contact", [], none, "10.0.0.1"⟩
        ⟨20, 60, []⟩ = (unauthorizedResp, ⟨20, 60, []⟩) := by
  have h := (verifyToken_gating [("/v1/forms/acme/contact", ⟨"acme", ["*"], "sekret"⟩)]
    (fun _ l => ({ status := 200, headers := [], body := "inner" }, l))
    ⟨"POST", "/v1/forms/acme/contact", [], none, "10.0.0.1"⟩ ⟨20, 60, []⟩).2
    ⟨"acme", ["*"], "sekret"⟩ (by decide) (by decide) (by decide) rfl
  exact h.1 (by decide) (by decide)

/-- Claim C8: because `withMiddleware` wraps token verification outside
the rate-limit stage, a non-OPTIONS request on a registered path whose
tenant requires a token and whose token header is absent or mismatched
never reaches the rate limiter: the composed pipeline's response is the
same for every inner handler and the limiter's bucket map is returned
unchanged — `allow` is never called. -/
theorem withMiddleware_auth_precedes_rateLimit (paths : List (String × pathInfo))
    (r : Request) (l : fixedWindowLimiter) (now : Int) (info : pathInfo)
    (hm : r.method ≠ "OPTIONS")
    (hstart : hasPrefixGo r.path "/" = true) (hslash : r.path ≠ "/")
    (hlook : lookupKV paths r.path = some info)
    (htok : info.token ≠ "")
    (hhdr : headerGet r siteTokenHeader ≠ info.token) :
    ∃ resp, ∀ inner : Handler, withMiddlewareCore paths now inner r l = (resp, l) := by
  have hne : r.path ≠ "" := by
    intro e
    rw [e] at hstart
    exact absurd hstart (by decide)
  have hshape : ¬ (r.path = "" ∨ r.path = "/" ∨ hasPrefixGo r.path "/" = false) := by
    rintro (h | h | h)
    · exact hne h
    · exact hslash h
    · rw [hstart] at h
      cases h
  have hverify : ∀ (inner : Handler) (r' : Request), r'.method = r.method →
      r'.path = r.path → r'.headers = r.headers →
      verifyTokenStage paths (rateLimitStage now inner) r' l = (unauthorizedResp, l) := by
    intro inner r' hm' hp' hh'
    have hm2 : r'.method ≠ "OPTIONS" := by
      rw [hm']
      exact hm
    have hhdr2 : headerGet r' siteTokenHeader ≠ info.token := by
      unfold headerGet
      rw [hh']
      exact hhdr
    by_cases hempty : headerGet r' siteTokenHeader = ""
    · simp [verifyTokenStage, hm2, hp', hne, hslash, hstart, hlook, htok, hempty]
    · simp [verifyTokenStage, hm2, hp', hne, hslash, hstart, hlook, htok, hempty, hhdr2]
  have hget : ∀ (ct : Option String) (n : String),
      headerGet { r with ctxSite := ct } n = headerGet r n := fun _ _ => rfl
  by_cases hc1 : (headerGet r "Origin" = "" ∧ "*" ∉ info.allowedOrigins)
  · obtain ⟨ho, hw⟩ := hc1
    refine ⟨httpError "Forbidden" 403, fun inner => ?_⟩
    by_cases hsite : info.site = "" <;>
      simp [withMiddlewareCore, pathContextStage, corsByPathStage, hlook, hsite,
        hshape, hget, ho, hw]
  · by_cases hc2 : ("*" ∉ info.allowedOrigins ∧
        headerGet r "Origin" ∉ info.allowedOrigins)
    · obtain ⟨hw, hcont⟩ := hc2
      refine ⟨httpError "Forbidden" 403, fun inner => ?_⟩
      by_cases hsite : info.site = "" <;>
        simp [withMiddlewareCore, pathContextStage, corsByPathStage, hlook, hsite,
          hshape, hget, hc1, hw, hcont]
    · refine ⟨{ unauthorizedResp with headers :=
        [("Access-Control-Allow-Origin", headerGet r "Origin"), ("Vary", "Origin")] ++
          unauthorizedResp.headers }, fun inner => ?_⟩
      by_cases hsite : info.site = ""
      · have hv := hverify inner r rfl rfl rfl
        simp [withMiddlewareCore, pathContextStage, corsByPathStage, hlook, hsite,
          hshape, hget, hc1, hc2, hv]
      · have hv := hverify inner { r with ctxSite := some info.site } rfl rfl rfl
        simp [withMiddlewareCore, pathContextStage, corsByPathStage, hlook, hsite,
          hshape, hget, hc1, hc2, hv]

/-- Witness for claim C8's theorem: a tokenless POST to a protected
registered path leaves the limiter's bucket map unchanged whatever the
inner handler is. -/
theorem withMiddleware_auth_precedes_rateLimit_witness :
    ∃ resp, ∀ inner : Handler,
      withMiddlewareCore [("/v1/forms/acme/contact", ⟨"acme", ["*"], "sekret"⟩)] 0 inner
        ⟨"POST", "/v1/forms/acme/contact", [], none, "1.2.3.4"⟩ ⟨20, 60, []⟩ =
      (resp, ⟨20, 60, []⟩) :=
  withMiddleware_auth_precedes_rateLimit
    [("/v1/forms/acme/contact", ⟨"acme", ["*"], "sekret"⟩)]
    ⟨"POST", "/v1/forms/acme/contact", [], none, "1.2.3.4"⟩ ⟨20, 60, []⟩ 0
    ⟨"acme", ["*"], "sekret"⟩ (by decide) (by decide) (by decide) rfl (by decide)
    (by decide)

end Bifrost
